import Mathlib

/-!
Verification development for the group-based plot construction engine of
`src/Visualiser.py` (class `TableVisualiserApp`, functions `to_float_list`,
`plot` and `make_group_plot`).

The embedding is shallow:
* a table cell is classified by what `pd.to_numeric(..., errors="coerce")`
  does to it: it yields a finite number (numeric cells and numeric strings),
  an infinite value (inf floats, and strings such as `"inf"` or `"-Infinity"`,
  which `dropna` keeps, since it drops only NaN), or NaN (non-numeric
  strings, missing values); non-NaN parse results are `PyFloat` values;
* finite real values are modelled by rationals;
* Python dictionaries keyed by strings are modelled by association lists with
  first-match lookup (`alookup`); insertion order is preserved, as in Python;
* `str.lower` is modelled on ASCII letters (`pyLower`);
* the numpy generators (`np.random.default_rng`) are modelled by an abstract
  deterministic generator interface `RngModel`: generator states are naturals,
  `default_rng(seed)` is `init`, `Generator.integers(0, 10_000_000)` is
  `integersDraw`, and `Generator.normal(loc, scale)` is
  `loc + scale * z` where `z` is the next standard-normal variate
  (`stdNormal`), which is how numpy produces a scaled normal draw.
-/

/-- A non-NaN value produced by `pd.to_numeric(..., errors="coerce")`: a
finite float (modelled as a rational) or one of the two infinities — pandas
parses inf floats and strings such as `"inf"` or `"-Infinity"` to `±inf`,
which is a value, not NaN. -/
inductive PyFloat where
  | fin (q : ℚ)
  | posInf
  | negInf
deriving DecidableEq

/-- Whether a parsed value is a finite real number. -/
def PyFloat.isFinite : PyFloat → Bool
  | .fin _ => true
  | .posInf => false
  | .negInf => false

/-- A raw table cell, classified by how `pd.to_numeric(..., errors="coerce")`
(used in `to_float_list`, Visualiser.py lines 64-72, and in the scatter loop,
line 762) treats it: a finite number (or a string that parses as one), an
infinite value (an inf float, or a string such as `"inf"` or `"-Infinity"`,
with its sign), a non-numeric string (coerced to NaN), or a missing value
(NaN). -/
inductive Cell where
  | num (q : ℚ)
  | infinite (pos : Bool)
  | nonNumeric
  | missing
deriving DecidableEq

/-- The value of a cell under `pd.to_numeric` with `errors="coerce"`
(`none` is NaN; an infinite parse is a value, not NaN). -/
def Cell.toNum : Cell → Option PyFloat
  | .num q => some (.fin q)
  | .infinite true => some .posInf
  | .infinite false => some .negInf
  | .nonNumeric => none
  | .missing => none

/-- The cell class a parsed value exhibits (reference function, used to state
that the `to_float_list` output is an order-preserving sublist of its
input). -/
def PyFloat.toCell : PyFloat → Cell
  | .fin q => .num q
  | .posInf => .infinite true
  | .negInf => .infinite false

/-- `pd.to_numeric(pd.Series(values), errors="coerce")` : elementwise coercion
of a list of raw cells (Visualiser.py line 71). -/
def toNumericCoerce (vs : List Cell) : List (Option PyFloat) :=
  vs.map Cell.toNum

/-- `Series.dropna` : drop the NaN entries (Visualiser.py line 71); infinite
values are not NaN and are kept. -/
def dropna (vs : List (Option PyFloat)) : List PyFloat :=
  vs.filterMap id

/-- `to_float_list` (Visualiser.py lines 64-72): coerce the values to numbers,
then drop everything that became NaN. -/
def to_float_list (vs : List Cell) : List PyFloat :=
  dropna (toNumericCoerce vs)

/-- Lower-case an ASCII letter (model of Python `str.lower` on one char). -/
def lowerChar (c : Char) : Char :=
  if 65 ≤ c.toNat ∧ c.toNat ≤ 90 then Char.ofNat (c.toNat + 32) else c

/-- Python `str.lower()` (`rid.lower()`, Visualiser.py lines 708 and 731),
modelled on ASCII letters. -/
def pyLower (s : String) : String :=
  ⟨s.data.map lowerChar⟩

/-- Python dict lookup on an association list built in insertion order:
the first matching key wins (keys are unique in the dicts the source builds,
so first-match and last-match coincide there). -/
def alookup {β : Type} : List (String × β) → String → Option β
  | [], _ => none
  | (a, b) :: rest, l => if l = a then some b else alookup rest l

/-- The dataset as seen by `make_group_plot`: the identifier column as strings
(`self.df[self.id_col].astype(str)`, line 707) and a cell accessor
(column name, row offset) ↦ raw cell (`row[c]`, line 762). -/
structure Table where
  ids : List String
  cell : String → ℕ → Cell

/-- One insertion step of the `idx_map` build (Visualiser.py lines 708-710):
`if lrid not in idx_map: idx_map[lrid] = i`. -/
def idxMapInsert (m : List (String × ℕ)) (lrid : String) (i : ℕ) :
    List (String × ℕ) :=
  if (alookup m lrid).isSome then m else m ++ [(lrid, i)]

/-- The enumeration loop building `idx_map` (Visualiser.py lines 706-710). -/
def idxMapAux : List String → ℕ → List (String × ℕ) → List (String × ℕ)
  | [], _, m => m
  | rid :: rest, i, m => idxMapAux rest (i + 1) (idxMapInsert m (pyLower rid) i)

/-- `idx_map` (Visualiser.py lines 705-710): mapping from lower-cased row
identifier to the first row offset where it occurs. -/
def idx_map (ids : List String) : List (String × ℕ) :=
  idxMapAux ids 0 []

/-- Row lookup as performed in the draw loop (Visualiser.py lines 731-735):
the selected identifier is lower-cased, then looked up in `idx_map`. -/
def resolveRow (tbl : Table) (rid : String) : Option ℕ :=
  alookup (idx_map tbl.ids) (pyLower rid)

/-- Reference function: first offset (counting from `i0`) whose identifier
lower-cases to `l`. Used only to characterise `idx_map`. -/
def firstIdxFrom : List String → ℕ → String → Option ℕ
  | [], _, _ => none
  | rid :: rest, i, l =>
    if pyLower rid = l then some i else firstIdxFrom rest (i + 1) l

/-- A palette color, as an RGB byte triple. -/
abbrev Color := ℕ × ℕ × ℕ

/-- The matplotlib `tab20` qualitative palette (`plt.get_cmap("tab20")`,
Visualiser.py line 699) as RGB byte triples; calling the listed colormap with
an integer `i < 20` returns the `i`-th entry. -/
def tab20 : List Color :=
  [(31, 119, 180), (174, 199, 232), (255, 127, 14), (255, 187, 120),
   (44, 160, 44), (152, 223, 138), (214, 39, 40), (255, 152, 150),
   (148, 103, 189), (197, 176, 213), (140, 86, 75), (196, 156, 148),
   (227, 119, 194), (247, 182, 210), (127, 127, 127), (199, 199, 199),
   (188, 189, 34), (219, 219, 141), (23, 190, 207), (158, 218, 229)]

/-- The `sample_color` dict comprehension (line 700):
`{c: cmap(i % 20) for i, c in enumerate(sample_order)}`, built as an
association list with the enumeration counter starting at `i`. -/
def sampleColorMapAux : ℕ → List String → List (String × Color)
  | _, [] => []
  | i, c :: rest =>
    (c, tab20.getD (i % 20) (0, 0, 0)) :: sampleColorMapAux (i + 1) rest

/-- `sample_color` (line 700). -/
def sampleColorMap (order : List String) : List (String × Color) :=
  sampleColorMapAux 0 order

/-- The dict lookup `sample_color[c]` (line 770) for a given sample order. -/
def color_of (order : List String) (c : String) : Color :=
  (alookup (sampleColorMap order) c).getD (0, 0, 0)

/-- `self.id_markers` (Visualiser.py line 126): the fixed marker palette. -/
def id_markers : List String :=
  ["o", "s", "^", "D", "v", "P", "X", "*", "<", ">", "h", "H", "8", "p"]

/-- The `id_marker` dict comprehension (line 703):
`{rid: self.id_markers[i % len(self.id_markers)] for i, rid in
enumerate(selected_ids)}`, with the enumeration counter starting at `i`. -/
def idMarkerMapAux : ℕ → List String → List (String × String)
  | _, [] => []
  | i, rid :: rest =>
    (rid, id_markers.getD (i % id_markers.length) "o") :: idMarkerMapAux (i + 1) rest

/-- `id_marker` (line 703). -/
def idMarkerMap (sel : List String) : List (String × String) :=
  idMarkerMapAux 0 sel

/-- The dict lookup `id_marker[rid]` (lines 769 and 777). -/
def marker_of (sel : List String) (rid : String) : String :=
  (alookup (idMarkerMap sel) rid).getD "o"

/-- The `seen`-set deduplication loop building `sample_order`
(lines 691-697): keep the first occurrence of each column. -/
def dedupAux : List String → List String → List String
  | [], _ => []
  | c :: rest, seen =>
    if c ∈ seen then dedupAux rest seen else c :: dedupAux rest (c :: seen)

/-- The dict lookup `group_to_cols[g]` (lines 694, 742). -/
def colsOf (gtc : List (String × List String)) (g : String) : List String :=
  (alookup gtc g).getD []

/-- Line 686: `ordered_groups = [g for g in ordered_groups if g in
group_to_cols]` — keep the groups that have assigned columns, in order. -/
def filteredGroups (og : List String) (gtc : List (String × List String)) :
    List String :=
  og.filter (fun g => (alookup gtc g).isSome)

/-- `sample_order` (lines 691-697): first-seen deduplication of the columns,
traversing groups in order and each group's columns in order. -/
def sampleOrderOf (og : List String) (gtc : List (String × List String)) :
    List String :=
  dedupAux ((filteredGroups og gtc).flatMap (colsOf gtc)) []

/-- `np.linspace a b n` (endpoint included; used with `n ≥ 2`). -/
def linspace (a b : ℚ) (n : ℕ) : List ℚ :=
  List.map (fun i : ℕ => a + (b - a) * i / ((n : ℚ) - 1)) (List.range n)

/-- Line 716: `offsets = np.linspace(-0.25, 0.25, num=K) if K > 1 else
np.array([0.0])`. -/
def offsets (K : ℕ) : List ℚ :=
  if 1 < K then linspace (-(1 / 4)) (1 / 4) K else [0]

/-- Line 715: `group_x = np.arange(G)`. -/
def group_x (G : ℕ) : List ℚ :=
  List.map (fun i : ℕ => (i : ℚ)) (List.range G)

/-- Abstract deterministic model of the numpy generators, with states as
naturals: `init` is `np.random.default_rng(seed)`, `integersDraw` is
`Generator.integers(0, 10_000_000)` returning the drawn value and the next
state, `stdNormal` is the next standard-normal variate underlying
`Generator.normal` (numpy computes `normal(loc, scale) = loc + scale * z`). -/
structure RngModel where
  init : ℕ → ℕ
  integersDraw : ℕ → ℕ × ℕ
  stdNormal : ℕ → ℚ × ℕ

/-- The plot options read from the GUI sliders (lines 718-719): default
jitter alpha 0.80 and jitter width 0.06. -/
structure Options where
  jitterAlpha : ℚ
  jitterWidth : ℚ
deriving DecidableEq

/-- One jittered scatter point (`ax.scatter`, lines 766-773). -/
structure Point where
  row : String
  group : String
  x : ℚ
  y : PyFloat
  color : Color
  marker : String
deriving DecidableEq

/-- The data handed to `ax.boxplot` for one (row, group) pair (lines
739-753): the pooled numeric values of the group's columns and the offset x
position. -/
structure Box where
  row : String
  group : String
  x : ℚ
  values : List PyFloat
deriving DecidableEq

/-- The renderable plot produced by one `make_group_plot` call: group x
positions and tick labels, box data, scatter points, and the two legends
(samples by color, lines 724-727 and 811-818; row identifiers by marker,
lines 776-778 and 801-809). -/
structure PlotSpec where
  groupPositions : List (String × ℚ)
  boxes : List Box
  points : List Point
  sampleLegend : List (String × Color)
  rowLegend : List (String × String)
deriving DecidableEq

/-- The inner scatter loop over the columns of one group for one resolved row
(lines 761-773): each numeric cell yields one point jittered around `x0`
(`rng.normal(loc=x0, scale=jitter_width)`); non-numeric cells are skipped and
consume no draw. Returns the points and the generator state after. -/
def colPoints (M : RngModel) (tbl : Table) (w : ℚ) (colorOf : String → Color)
    (marker rid g : String) (r : ℕ) (x0 : ℚ) :
    List String → ℕ → List Point × ℕ
  | [], s => ([], s)
  | c :: rest, s =>
    match (tbl.cell c r).toNum with
    | none => colPoints M tbl w colorOf marker rid g r x0 rest s
    | some v =>
      let z := M.stdNormal s
      let res := colPoints M tbl w colorOf marker rid g r x0 rest z.2
      ({ row := rid, group := g, x := x0 + w * z.1, y := v,
         color := colorOf c, marker := marker } :: res.1, res.2)

/-- The scatter loop over the (filtered, enumerated) groups for one resolved
row (lines 757-773); the point base position is
`positions[gi] = group_x[gi] + offsets[k] = gx[gi] + off`. -/
def groupPoints (M : RngModel) (tbl : Table) (w : ℚ) (colorOf : String → Color)
    (marker rid : String) (r : ℕ) (gx : List ℚ) (off : ℚ)
    (cols : String → List String) :
    List (ℕ × String) → ℕ → List Point × ℕ
  | [], s => ([], s)
  | (gi, g) :: rest, s =>
    let res₁ := colPoints M tbl w colorOf marker rid g r (gx.getD gi 0 + off) (cols g) s
    let res₂ := groupPoints M tbl w colorOf marker rid r gx off cols rest res₁.2
    (res₁.1 ++ res₂.1, res₂.2)

/-- The box data for one resolved row (lines 739-753): one entry per group,
pooling `to_float_list(row[cols])` at position `gx[gi] + off`. -/
def rowBoxes (tbl : Table) (rid : String) (r : ℕ) (gx : List ℚ) (off : ℚ)
    (cols : String → List String) (ordered : List (ℕ × String)) : List Box :=
  ordered.map (fun p =>
    { row := rid, group := p.2, x := gx.getD p.1 0 + off,
      values := to_float_list ((cols p.2).map (fun c => tbl.cell c r)) })

/-- The outer draw loop over the selected identifiers (lines 730-778),
threading the master generator state; returns scatter points, box data, the
marker legend handles (`id_handles`), and the final master state.
An identifier whose lower-cased form is not in `idx_map` is skipped by the
`continue` at line 733, before the master draw at line 756. -/
def plotRows (M : RngModel) (tbl : Table) (w : ℚ) (gx : List ℚ)
    (offs : List ℚ) (cols : String → List String)
    (markerOf : String → String) (colorOf : String → Color)
    (ordered : List (ℕ × String)) :
    List String → ℕ → ℕ → List Point × List Box × List (String × String) × ℕ
  | [], _, ms => ([], [], [], ms)
  | rid :: rest, k, ms =>
    match resolveRow tbl rid with
    | none => plotRows M tbl w gx offs cols markerOf colorOf ordered rest (k + 1) ms
    | some r =>
      let draw := M.integersDraw ms
      let s0 := M.init draw.1
      let off := offs.getD k 0
      let ptsRow := groupPoints M tbl w colorOf (markerOf rid) rid r gx off cols ordered s0
      let res := plotRows M tbl w gx offs cols markerOf colorOf ordered rest (k + 1) draw.2
      (ptsRow.1 ++ res.1, rowBoxes tbl rid r gx off cols ordered ++ res.2.1,
        (rid, markerOf rid) :: res.2.2.1, res.2.2.2)

/-- `make_group_plot` (Visualiser.py lines 685-821), as the `PlotSpec` it
renders. The second argument models whatever ambient random-generator state
previous plot builds left behind: the source never reads it, because it seeds
a fresh local master generator with the fixed master seed
(`rng_master = np.random.default_rng(2026)`, line 720). -/
def make_group_plot (M : RngModel) (_gstate : ℕ) (tbl : Table)
    (selected_ids : List String) (ordered_groups : List String)
    (group_to_cols : List (String × List String)) (opts : Options) : PlotSpec :=
  let ordered := filteredGroups ordered_groups group_to_cols
  let G := ordered.length
  let K := selected_ids.length
  let order := sampleOrderOf ordered_groups group_to_cols
  let gx := group_x G
  let offs := offsets K
  let res := plotRows M tbl opts.jitterWidth gx offs (colsOf group_to_cols)
    (marker_of selected_ids) (color_of order) ordered.enum selected_ids 0
    (M.init 2026)
  { groupPositions := ordered.zip gx
    boxes := res.2.1
    points := res.1
    sampleLegend := sampleColorMap order
    rowLegend := res.2.2.1 }

/-- The two user-input failure modes of `TableVisualiserApp.plot`
(lines 664-679). -/
inductive PlotError where
  | EmptySelection
  | NoColumnsAssigned
deriving DecidableEq

/-- The `group_to_cols` dict built in `plot` (lines 671-675): the groups
retaining at least one assigned column, in order. -/
def nonEmptyGroups (groups : List (String × List String)) :
    List (String × List String) :=
  groups.filter (fun p => ¬p.2.isEmpty)

/-- `TableVisualiserApp.plot` (lines 659-683): report `EmptySelection` when
no row identifiers are selected, `NoColumnsAssigned` when every group has
zero assigned columns, and otherwise build the plot via `make_group_plot`. -/
def plot (M : RngModel) (gstate : ℕ) (tbl : Table)
    (selected_ids : List String) (groups : List (String × List String))
    (opts : Options) : Except PlotError PlotSpec :=
  if selected_ids.isEmpty then .error .EmptySelection
  else if (nonEmptyGroups groups).isEmpty then .error .NoColumnsAssigned
  else .ok (make_group_plot M gstate tbl selected_ids (groups.map Prod.fst)
    (nonEmptyGroups groups) opts)

/-- The (identifier, per-row seed) pairs drawn from the master generator by
the outer loop (line 756), in draw order: an unresolvable identifier consumes
no draw (the `continue` at line 733 precedes the draw). -/
def rowSeedsAux (M : RngModel) (tbl : Table) :
    List String → ℕ → List (String × ℕ)
  | [], _ => []
  | rid :: rest, ms =>
    match resolveRow tbl rid with
    | none => rowSeedsAux M tbl rest ms
    | some _ =>
      let draw := M.integersDraw ms
      (rid, draw.1) :: rowSeedsAux M tbl rest draw.2

/-- The per-row seeds drawn during one build, starting from the freshly
seeded master generator (line 720). -/
def rowSeeds (M : RngModel) (tbl : Table) (sel : List String) :
    List (String × ℕ) :=
  rowSeedsAux M tbl sel (M.init 2026)

/-- Master generator state after `n` draws from the fixed master seed. -/
def masterStateAt (M : RngModel) : ℕ → ℕ
  | 0 => M.init 2026
  | n + 1 => (M.integersDraw (masterStateAt M n)).2

/-- The value of the `n`-th (0-based) draw from the master generator. -/
def masterDrawAt (M : RngModel) (n : ℕ) : ℕ :=
  (M.integersDraw (masterStateAt M n)).1

/-- The layout sub-offset a selected identifier receives: `offsets[k]` with
`k` its position in the selection list. -/
def subOffset (sel : List String) (rid : String) : ℚ :=
  (offsets sel.length).getD (sel.indexOf rid) 0

/-- A concrete generator instance, used for the concrete evaluations below. -/
def testRng : RngModel :=
  { init := fun s => s
    integersDraw := fun s => (s % 10000000, s + 1)
    stdNormal := fun s => (((s % 7 : ℕ) : ℚ) / 10, s + 1) }

/-- The GUI default plot options (lines 241-242): alpha 0.80, width 0.06. -/
def defaultOpts : Options :=
  { jitterAlpha := 4 / 5, jitterWidth := 3 / 50 }

/-- Reference function: the identifiers of `rids` paired with the consecutive
master draws starting at draw index `n`. Used only to characterise
`rowSeeds`. -/
def seedsFrom (M : RngModel) : List String → ℕ → List (String × ℕ)
  | [], _ => []
  | rid :: rest, n => (rid, masterDrawAt M n) :: seedsFrom M rest (n + 1)

/-- Reference function: the scatter points of the draw loop with every layout
sub-offset removed (offset 0) and markers erased, as (row, group, x, y,
color) tuples. Used only to characterise how the points of two builds relate
when an unresolvable identifier is inserted. -/
def normRows (M : RngModel) (tbl : Table) (w : ℚ) (gx : List ℚ)
    (cols : String → List String) (colorOf : String → Color)
    (ordered : List (ℕ × String)) :
    List String → ℕ → List (String × String × ℚ × PyFloat × Color)
  | [], _ => []
  | rid :: rest, ms =>
    match resolveRow tbl rid with
    | none => normRows M tbl w gx cols colorOf ordered rest ms
    | some r =>
      let draw := M.integersDraw ms
      ((groupPoints M tbl w colorOf "" rid r gx 0 cols ordered (M.init draw.1)).1.map
        (fun pt => (pt.row, pt.group, pt.x, pt.y, pt.color))) ++
        normRows M tbl w gx cols colorOf ordered rest draw.2

/-- A one-row table: identifier `"A"`, column `c1` holding the number 5,
every other cell missing. For concrete evaluations. -/
def oneRowTable : Table :=
  { ids := ["A"]
    cell := fun c i => if c = "c1" ∧ i = 0 then Cell.num 5 else Cell.missing }

/-- Fifteen distinct selected row identifiers, for concrete evaluations. -/
def fifteenIds : List String :=
  ["r0", "r1", "r2", "r3", "r4", "r5", "r6", "r7", "r8", "r9", "r10", "r11",
   "r12", "r13", "r14"]

/-! ## Helper lemmas -/

theorem alookup_append {β : Type} (m₁ m₂ : List (String × β)) (l : String) :
    alookup (m₁ ++ m₂) l = ((alookup m₁ l).or (alookup m₂ l)) := by
  induction m₁ with
  | nil => simp [alookup]
  | cons p rest ih =>
    obtain ⟨a, b⟩ := p
    by_cases h : l = a <;> simp [alookup, h, ih]

theorem idxMapInsert_lookup (m : List (String × ℕ)) (lrid l : String) (i : ℕ) :
    alookup (idxMapInsert m lrid i) l =
      ((alookup m l).or (if lrid = l then some i else none)) := by
  unfold idxMapInsert
  by_cases hm : (alookup m lrid).isSome
  · simp only [hm, if_true]
    by_cases hl : lrid = l
    · subst hl
      obtain ⟨v, hv⟩ := Option.isSome_iff_exists.mp hm
      simp [hv]
    · simp [hl]
  · rw [if_neg hm, alookup_append]
    by_cases hl : l = lrid
    · subst hl
      simp [alookup]
    · have hne : ¬lrid = l := fun h => hl h.symm
      simp [alookup, hl, hne]

theorem idxMapAux_lookup (ids : List String) (i : ℕ) (m : List (String × ℕ))
    (l : String) :
    alookup (idxMapAux ids i m) l = ((alookup m l).or (firstIdxFrom ids i l)) := by
  induction ids generalizing i m with
  | nil => simp [idxMapAux, firstIdxFrom]
  | cons rid rest ih =>
    simp only [idxMapAux, firstIdxFrom]
    rw [ih, idxMapInsert_lookup]
    by_cases hl : pyLower rid = l
    · simp only [hl, if_true]
      cases alookup m l <;> simp
    · simp only [hl, if_false]
      cases alookup m l <;> simp

theorem firstIdxFrom_eq_some (ids : List String) (i0 j : ℕ) (l : String) :
    firstIdxFrom ids i0 l = some j ↔
      ∃ k, j = i0 + k ∧ k < ids.length ∧ pyLower (ids.getD k "") = l ∧
        ∀ m < k, pyLower (ids.getD m "") ≠ l := by
  induction ids generalizing i0 with
  | nil => simp [firstIdxFrom]
  | cons rid rest ih =>
    simp only [firstIdxFrom]
    by_cases h : pyLower rid = l
    · simp only [h, if_true]
      constructor
      · rintro hj
        refine ⟨0, by simpa using hj.symm, by simp, by simpa using h, by omega⟩
      · rintro ⟨k, hjk, _, hk, hmin⟩
        cases k with
        | zero => simp [hjk]
        | succ k =>
          exact absurd h (by simpa using hmin 0 (Nat.succ_pos k))
    · simp only [h, if_false]
      rw [ih (i0 + 1)]
      constructor
      · rintro ⟨k, hjk, hlen, hk, hmin⟩
        refine ⟨k + 1, by omega, by simpa using hlen, by simpa using hk, ?_⟩
        intro m hm
        cases m with
        | zero => simpa using h
        | succ m => simpa using hmin m (by omega)
      · rintro ⟨k, hjk, hlen, hk, hmin⟩
        cases k with
        | zero => exact absurd (by simpa using hk) h
        | succ k =>
          refine ⟨k, by omega, by simpa using hlen, by simpa using hk, ?_⟩
          intro m hm
          simpa using hmin (m + 1) (by omega)

/-! ## Claim theorems -/

/-- C7: the row index maps each lower-cased identifier string to the row
offset of its first (case-insensitive) occurrence — the smallest offset wins —
and lookup of a selected identifier is performed on its lower-cased form. -/
theorem row_index_first_occurrence (tbl : Table) (rid : String) (i : ℕ) :
    resolveRow tbl rid = some i ↔
      i < tbl.ids.length ∧ pyLower (tbl.ids.getD i "") = pyLower rid ∧
        ∀ j < i, pyLower (tbl.ids.getD j "") ≠ pyLower rid := by
  unfold resolveRow idx_map
  rw [idxMapAux_lookup]
  simp only [alookup, Option.none_or]
  rw [firstIdxFrom_eq_some]
  constructor
  · rintro ⟨k, hk, hlen, hkl, hmin⟩
    subst hk
    exact ⟨by simpa using hlen, by simpa using hkl, by simpa using hmin⟩
  · rintro ⟨hlen, hil, hmin⟩
    exact ⟨i, by omega, hlen, hil, hmin⟩

/-- C7 witness: in the table with identifier column `["B", "A", "a"]`, the
identifier `"a"` (looked up case-insensitively) resolves to row offset 1,
its first case-insensitive occurrence. -/
theorem row_index_first_occurrence_witness :
    resolveRow { ids := ["B", "A", "a"], cell := fun _ _ => Cell.missing } "a"
      = some 1 :=
  (row_index_first_occurrence
    { ids := ["B", "A", "a"], cell := fun _ _ => Cell.missing } "a" 1).mpr
    (by refine ⟨by decide, by decide, ?_⟩
        intro j hj
        interval_cases j
        decide)

/-- C8 counterexample: a cell that pandas coerces to `+inf` (an inf float,
or a string such as `"inf"`) is not dropped — `dropna` drops only NaN — so
`to_float_list` returns a value that is not a finite real number: the claim
that it returns exactly the subset parsing as finite real numbers is false
on the code. -/
theorem to_float_list_keeps_infinite_cex :
    to_float_list [Cell.infinite true, Cell.num 2, Cell.missing] =
      [PyFloat.posInf, PyFloat.fin 2] ∧
    PyFloat.posInf.isFinite = false :=
  ⟨rfl, rfl⟩

/-- C8 (amended): `to_float_list` returns exactly the values of the cells
that parse as real numbers, finite or infinite — everything `pd.to_numeric`
coerces to a non-NaN value — preserving their relative order (the output,
viewed as cells, is a sublist of the input), discarding exactly the
non-numeric and missing cells (which coerce to NaN), and, being a total
function, raising no error for non-numeric content; an infinite parse is
retained, not discarded. -/
theorem to_float_list_parsed_values (vs : List Cell) :
    to_float_list vs = vs.filterMap Cell.toNum ∧
      ((to_float_list vs).map PyFloat.toCell).Sublist vs ∧
      (∀ q : ℚ, Cell.num q ∈ vs → PyFloat.fin q ∈ to_float_list vs) ∧
      (∀ b : Bool, to_float_list (Cell.infinite b :: vs) =
        (if b then PyFloat.posInf else PyFloat.negInf) :: to_float_list vs) ∧
      to_float_list (Cell.nonNumeric :: vs) = to_float_list vs ∧
      to_float_list (Cell.missing :: vs) = to_float_list vs := by
  have hmain : ∀ ws : List Cell, to_float_list ws = ws.filterMap Cell.toNum := by
    intro ws
    simp [to_float_list, dropna, toNumericCoerce, List.filterMap_map]
  refine ⟨hmain vs, ?_, ?_, ?_, by simp [hmain, List.filterMap_cons, Cell.toNum],
    by simp [hmain, List.filterMap_cons, Cell.toNum]⟩
  · rw [hmain]
    induction vs with
    | nil => simp
    | cons c rest ih =>
      cases c with
      | num q =>
        simpa [List.filterMap_cons, Cell.toNum, PyFloat.toCell] using
          ih.cons₂ (Cell.num q)
      | infinite b =>
        cases b with
        | true =>
          simpa [List.filterMap_cons, Cell.toNum, PyFloat.toCell] using
            ih.cons₂ (Cell.infinite true)
        | false =>
          simpa [List.filterMap_cons, Cell.toNum, PyFloat.toCell] using
            ih.cons₂ (Cell.infinite false)
      | nonNumeric =>
        simpa [List.filterMap_cons, Cell.toNum] using ih.cons Cell.nonNumeric
      | missing =>
        simpa [List.filterMap_cons, Cell.toNum] using ih.cons Cell.missing
  · intro q hq
    rw [hmain]
    exact List.mem_filterMap.mpr ⟨Cell.num q, hq, rfl⟩
  · intro b
    cases b with
    | true => simp [hmain, List.filterMap_cons, Cell.toNum]
    | false => simp [hmain, List.filterMap_cons, Cell.toNum]

theorem nonEmptyGroups_eq_nil (groups : List (String × List String)) :
    nonEmptyGroups groups = [] ↔ ∀ p ∈ groups, p.2 = [] := by
  simp [nonEmptyGroups, List.filter_eq_nil_iff]

/-- C1: two invocations of the plot construction with identical arguments
produce bit-identical jittered x-coordinates for every scatter point — indeed
identical `PlotSpec`s — whatever ambient generator states (second argument)
previous builds left behind: the master generator is seeded afresh with the
fixed master seed 2026 on every build, so no hidden generator state leaks
between independent plot builds. -/
theorem make_group_plot_deterministic (M : RngModel) (g₁ g₂ : ℕ) (tbl : Table)
    (sel og : List String) (gtc : List (String × List String)) (opts : Options) :
    ((make_group_plot M g₁ tbl sel og gtc opts).points.map Point.x =
      (make_group_plot M g₂ tbl sel og gtc opts).points.map Point.x) ∧
      make_group_plot M g₁ tbl sel og gtc opts =
        make_group_plot M g₂ tbl sel og gtc opts :=
  ⟨rfl, rfl⟩

/-- C2: `plot` fails with `EmptySelection` exactly when the selection is
empty, fails with `NoColumnsAssigned` exactly when the selection is non-empty
but every group has zero assigned columns, and in every other case succeeds
and builds a plot. -/
theorem plot_error_characterization (M : RngModel) (g : ℕ) (tbl : Table)
    (sel : List String) (groups : List (String × List String)) (opts : Options) :
    (plot M g tbl sel groups opts = .error .EmptySelection ↔ sel = []) ∧
    (plot M g tbl sel groups opts = .error .NoColumnsAssigned ↔
      sel ≠ [] ∧ ∀ p ∈ groups, p.2 = []) ∧
    ((∃ s, plot M g tbl sel groups opts = .ok s) ↔
      sel ≠ [] ∧ ∃ p ∈ groups, p.2 ≠ []) := by
  by_cases hsel : sel = []
  · subst hsel
    simp [plot]
  · by_cases hg : nonEmptyGroups groups = []
    · have hall := (nonEmptyGroups_eq_nil groups).mp hg
      have hplot : plot M g tbl sel groups opts = .error .NoColumnsAssigned := by
        simp [plot, hsel, hg, List.isEmpty_iff]
      refine ⟨?_, ?_, ?_⟩
      · simp [hplot, hsel]
      · simp only [hplot]
        exact ⟨fun _ => ⟨hsel, hall⟩, fun _ => trivial⟩
      · constructor
        · rintro ⟨s, hs⟩
          rw [hplot] at hs
          cases hs
        · rintro ⟨-, p, hp, hpne⟩
          exact absurd (hall p hp) hpne
    · have hne : ¬∀ p ∈ groups, p.2 = [] :=
        fun h => hg ((nonEmptyGroups_eq_nil groups).mpr h)
      have hplot : plot M g tbl sel groups opts =
          .ok (make_group_plot M g tbl sel (groups.map Prod.fst)
            (nonEmptyGroups groups) opts) := by
        simp [plot, hsel, hg, List.isEmpty_iff]
      refine ⟨?_, ?_, ?_⟩
      · simp [hplot, hsel]
      · constructor
        · intro h
          rw [hplot] at h
          cases h
        · rintro ⟨-, hforall⟩
          exact absurd hforall hne
      · constructor
        · intro _
          refine ⟨hsel, ?_⟩
          by_contra hno
          push_neg at hno
          exact hne fun p hp => hno p hp
        · intro _
          exact ⟨_, hplot⟩

theorem dedupAux_nodup (l seen : List String) :
    (dedupAux l seen).Nodup ∧ ∀ a ∈ dedupAux l seen, a ∉ seen := by
  induction l generalizing seen with
  | nil => simp [dedupAux]
  | cons c rest ih =>
    by_cases h : c ∈ seen
    · simpa [dedupAux, h] using ih seen
    · simp only [dedupAux, h, if_false]
      obtain ⟨hnd, hdisj⟩ := ih (c :: seen)
      refine ⟨List.nodup_cons.mpr ⟨fun hc => ?_, hnd⟩, ?_⟩
      · exact (hdisj c hc) (List.mem_cons_self c seen)
      · intro a ha
        rcases List.mem_cons.mp ha with rfl | ha
        · exact h
        · intro hseen
          exact hdisj a ha (List.mem_cons_of_mem c hseen)

theorem sampleColorMapAux_lookup (order : List String) (i j : ℕ)
    (hj : j < order.length) (hnd : order.Nodup) :
    alookup (sampleColorMapAux i order) (order.getD j "") =
      some (tab20.getD ((i + j) % 20) (0, 0, 0)) := by
  induction order generalizing i j with
  | nil => simp at hj
  | cons c rest ih =>
    cases j with
    | zero => simp [sampleColorMapAux, alookup]
    | succ j =>
      have hjr : j < rest.length := by simpa using hj
      have hmem : rest.getD j "" ∈ rest := by
        rw [List.getD_eq_getElem rest "" hjr]
        exact List.getElem_mem hjr
      have hcne : rest.getD j "" ≠ c := by
        intro he
        exact (List.nodup_cons.mp hnd).1 (he ▸ hmem)
      have : (i + (j + 1)) = ((i + 1) + j) := by omega
      simp only [List.getD_cons_succ, sampleColorMapAux, alookup, hcne, if_false, this]
      exact ih (i + 1) j hjr (List.nodup_cons.mp hnd).2

/-- C4: the color map assigns to each sample column the palette entry
`tab20[i mod 20]`, where `i` is the column's 0-based position in the
deduplicated first-seen order over (non-empty) groups then columns within
each group; the palette has (at least) 20 entries; and the mapping is
injective whenever there are at most 20 distinct columns. -/
theorem sample_color_assignment (M : RngModel) (g : ℕ) (tbl : Table)
    (sel og : List String) (gtc : List (String × List String)) (opts : Options) :
    tab20.length = 20 ∧
    (make_group_plot M g tbl sel og gtc opts).sampleLegend =
      sampleColorMap (sampleOrderOf og gtc) ∧
    (∀ j < (sampleOrderOf og gtc).length,
      color_of (sampleOrderOf og gtc) ((sampleOrderOf og gtc).getD j "") =
        tab20.getD (j % 20) (0, 0, 0)) ∧
    ((sampleOrderOf og gtc).length ≤ 20 →
      ∀ c₁ ∈ sampleOrderOf og gtc, ∀ c₂ ∈ sampleOrderOf og gtc,
        color_of (sampleOrderOf og gtc) c₁ = color_of (sampleOrderOf og gtc) c₂ →
          c₁ = c₂) := by
  have hnd : (sampleOrderOf og gtc).Nodup :=
    (dedupAux_nodup ((filteredGroups og gtc).flatMap (colsOf gtc)) []).1
  have hform : ∀ j < (sampleOrderOf og gtc).length,
      color_of (sampleOrderOf og gtc) ((sampleOrderOf og gtc).getD j "") =
        tab20.getD (j % 20) (0, 0, 0) := by
    intro j hj
    unfold color_of sampleColorMap
    rw [sampleColorMapAux_lookup (sampleOrderOf og gtc) 0 j hj hnd]
    simp
  have h20 : tab20.length = 20 := by decide
  refine ⟨h20, rfl, hform, ?_⟩
  intro hle c₁ h₁ c₂ h₂ hcol
  obtain ⟨j₁, hj₁, rfl⟩ := List.getElem_of_mem h₁
  obtain ⟨j₂, hj₂, rfl⟩ := List.getElem_of_mem h₂
  have e₁ : (sampleOrderOf og gtc)[j₁] = (sampleOrderOf og gtc).getD j₁ "" :=
    (List.getD_eq_getElem _ "" hj₁).symm
  have e₂ : (sampleOrderOf og gtc)[j₂] = (sampleOrderOf og gtc).getD j₂ "" :=
    (List.getD_eq_getElem _ "" hj₂).symm
  rw [e₁, e₂, hform j₁ hj₁, hform j₂ hj₂] at hcol
  have hm₁ : j₁ % 20 = j₁ := Nat.mod_eq_of_lt (by omega)
  have hm₂ : j₂ % 20 = j₂ := Nat.mod_eq_of_lt (by omega)
  rw [hm₁, hm₂] at hcol
  rw [List.getD_eq_getElem tab20 (0, 0, 0) (by rw [h20]; omega),
    List.getD_eq_getElem tab20 (0, 0, 0) (by rw [h20]; omega)] at hcol
  have htnd : tab20.Nodup := by decide
  have hj12 : j₁ = j₂ := (htnd.getElem_inj_iff).mp hcol
  subst hj12
  rfl

/-- C4 witness: with one group `G1` holding columns `c1, c2`, the second
column receives palette entry `tab20[1 mod 20]`. -/
theorem sample_color_assignment_witness :
    color_of (sampleOrderOf ["G1"] [("G1", ["c1", "c2"])])
        ((sampleOrderOf ["G1"] [("G1", ["c1", "c2"])]).getD 1 "") =
      tab20.getD (1 % 20) (0, 0, 0) :=
  (sample_color_assignment testRng 0 ⟨[], fun _ _ => Cell.missing⟩ []
    ["G1"] [("G1", ["c1", "c2"])] defaultOpts).2.2.1 1 (by decide)

theorem idMarkerMapAux_lookup (sel : List String) (i j : ℕ)
    (hj : j < sel.length) (hnd : sel.Nodup) :
    alookup (idMarkerMapAux i sel) (sel.getD j "") =
      some (id_markers.getD ((i + j) % id_markers.length) "o") := by
  induction sel generalizing i j with
  | nil => simp at hj
  | cons c rest ih =>
    cases j with
    | zero => simp [idMarkerMapAux, alookup]
    | succ j =>
      have hjr : j < rest.length := by simpa using hj
      have hmem : rest.getD j "" ∈ rest := by
        rw [List.getD_eq_getElem rest "" hjr]
        exact List.getElem_mem hjr
      have hcne : rest.getD j "" ≠ c := by
        intro he
        exact (List.nodup_cons.mp hnd).1 (he ▸ hmem)
      have harith : (i + (j + 1)) = ((i + 1) + j) := by omega
      simp only [List.getD_cons_succ, idMarkerMapAux, alookup, hcne, if_false, harith]
      exact ih (i + 1) j hjr (List.nodup_cons.mp hnd).2

/-- C5 counterexample: the fixed marker palette `id_markers` has 14 entries,
not 12, and with 15 selected rows the identifier at index 12 receives marker
`"8"` while the identifier at index 0 receives `"o"`: the claimed cycle
"row index 12 gets the same marker as row index 0 (12-entry palette)" is
false on the code. -/
theorem marker_twelve_cycle_cex :
    id_markers.length = 14 ∧
    marker_of fifteenIds "r12" = "8" ∧
    marker_of fifteenIds "r0" = "o" ∧
    marker_of fifteenIds "r12" ≠ marker_of fifteenIds "r0" := by
  refine ⟨by decide, by decide, by decide, by decide⟩

/-- C5 (amended): the marker map assigns to the identifier at 0-based
position `i` the marker `id_markers[i mod 14]` from the fixed palette of 14
pairwise-distinct shapes (at least 12), so the cycle length is 14, not 12:
selecting 15 rows assigns row index 14 — not 12 — the same marker as row
index 0. -/
theorem marker_assignment_cycles (sel : List String) (hnd : sel.Nodup) :
    12 ≤ id_markers.length ∧ id_markers.length = 14 ∧ id_markers.Nodup ∧
    (∀ j < sel.length,
      marker_of sel (sel.getD j "") = id_markers.getD (j % 14) "o") ∧
    (15 ≤ sel.length →
      marker_of sel (sel.getD 14 "") = marker_of sel (sel.getD 0 "")) := by
  have hform : ∀ j < sel.length,
      marker_of sel (sel.getD j "") = id_markers.getD (j % 14) "o" := by
    intro j hj
    unfold marker_of idMarkerMap
    rw [idMarkerMapAux_lookup sel 0 j hj hnd]
    simp [id_markers]
  refine ⟨by decide, by decide, by decide, hform, ?_⟩
  intro h15
  rw [hform 14 (by omega), hform 0 (by omega)]

/-- C5 witness: with the fifteen distinct identifiers `r0 … r14` selected,
row index 14 receives the same marker as row index 0. -/
theorem marker_assignment_cycles_witness :
    marker_of fifteenIds (fifteenIds.getD 14 "") =
      marker_of fifteenIds (fifteenIds.getD 0 "") :=
  ((marker_assignment_cycles fifteenIds (by decide)).2.2.2.2) (by decide)

theorem group_x_getD (G i : ℕ) (hi : i < G) : (group_x G).getD i 0 = (i : ℚ) := by
  unfold group_x
  have hb : i < (List.map (fun j : ℕ => (j : ℚ)) (List.range G)).length := by
    rw [List.length_map, List.length_range]
    exact hi
  rw [List.getD_eq_getElem _ 0 hb, List.getElem_map, List.getElem_range]

theorem linspace_length (a b : ℚ) (n : ℕ) : (linspace a b n).length = n := by
  unfold linspace
  rw [List.length_map, List.length_range]

theorem linspace_getD (a b : ℚ) (n i : ℕ) (hi : i < n) :
    (linspace a b n).getD i 0 = a + (b - a) * i / ((n : ℚ) - 1) := by
  unfold linspace
  have hb : i < (List.map (fun j : ℕ => a + (b - a) * j / ((n : ℚ) - 1))
      (List.range n)).length := by
    rw [List.length_map, List.length_range]
    exact hi
  rw [List.getD_eq_getElem _ 0 hb, List.getElem_map, List.getElem_range]

theorem offsets_length (K : ℕ) : (offsets K).length = max K 1 := by
  unfold offsets
  by_cases h : 1 < K
  · rw [if_pos h, linspace_length]
    omega
  · rw [if_neg h, List.length_singleton]
    omega

theorem offsets_getD (K i : ℕ) (hK : 1 < K) (hi : i < K) :
    (offsets K).getD i 0 = -(1 / 4) + (1 / 2) * i / ((K : ℚ) - 1) := by
  unfold offsets
  rw [if_pos hK, linspace_getD _ _ _ _ hi]
  norm_num

theorem plotRows_boxes_shape (M : RngModel) (tbl : Table) (w : ℚ)
    (gx : List ℚ) (offs : List ℚ) (cols : String → List String)
    (markerOf : String → String) (colorOf : String → Color)
    (ordered : List (ℕ × String)) :
    ∀ (selRest : List String) (k ms : ℕ) (bx : Box),
      bx ∈ (plotRows M tbl w gx offs cols markerOf colorOf ordered selRest k ms).2.1 →
      ∃ p ∈ ordered, ∃ kk, k ≤ kk ∧ kk < k + selRest.length ∧
        bx.x = gx.getD p.1 0 + offs.getD kk 0 := by
  intro selRest
  induction selRest with
  | nil =>
    intro k ms bx h
    simp [plotRows] at h
  | cons rid rest ih =>
    intro k ms bx h
    cases hres : resolveRow tbl rid with
    | none =>
      simp only [plotRows, hres] at h
      obtain ⟨p, hp, kk, h1, h2, h3⟩ := ih (k + 1) ms bx h
      exact ⟨p, hp, kk, by omega, by rw [List.length_cons]; omega, h3⟩
    | some r =>
      simp only [plotRows, hres, List.mem_append] at h
      rcases h with h | h
      · unfold rowBoxes at h
        simp only [List.mem_map] at h
        obtain ⟨p, hp, rfl⟩ := h
        exact ⟨p, hp, k, le_refl k, by rw [List.length_cons]; omega, rfl⟩
      · obtain ⟨p, hp, kk, h1, h2, h3⟩ := ih (k + 1) (M.integersDraw ms).2 bx h
        exact ⟨p, hp, kk, by omega, by rw [List.length_cons]; omega, h3⟩

/-- C6: the base x-coordinates of the non-empty groups are exactly
`0, 1, …, G-1` in group-declaration order (`G` = number of groups with at
least one assigned column; empty groups are excluded); the sub-offsets are
the single offset `0` when `K = 1`; for `K > 1` there are `K` of them,
starting at `−0.25`, ending at `+0.25`, evenly spaced and symmetric about
`0`; and every box position lies on the grid `gi + offsets[k]`, the same
sub-offset pattern at every group position. -/
theorem group_layout_positions_offsets (M : RngModel) (g : ℕ) (tbl : Table)
    (sel og : List String) (gtc : List (String × List String)) (opts : Options) :
    ((make_group_plot M g tbl sel og gtc opts).groupPositions =
      (filteredGroups og gtc).zip
        (List.map (fun i : ℕ => (i : ℚ))
          (List.range (filteredGroups og gtc).length))) ∧
    offsets 1 = [0] ∧
    (∀ K, (offsets K).length = max K 1) ∧
    (∀ K, 1 < K → (offsets K).getD 0 0 = -(1 / 4) ∧
      (offsets K).getD (K - 1) 0 = 1 / 4) ∧
    (∀ K i, 1 < K → i + 1 < K →
      (offsets K).getD (i + 1) 0 - (offsets K).getD i 0 =
        (1 / 2) / ((K : ℚ) - 1)) ∧
    (∀ K i, i < K →
      (offsets K).getD i 0 + (offsets K).getD (K - 1 - i) 0 = 0) ∧
    (∀ bx ∈ (make_group_plot M g tbl sel og gtc opts).boxes,
      ∃ gi < (filteredGroups og gtc).length, ∃ k < sel.length,
        bx.x = (gi : ℚ) + (offsets sel.length).getD k 0) := by
  refine ⟨rfl, by norm_num [offsets], offsets_length, ?_, ?_, ?_, ?_⟩
  · intro K hK
    have hKQ : (1 : ℚ) < (K : ℚ) := by exact_mod_cast hK
    have hne : ((K : ℚ) - 1) ≠ 0 := ne_of_gt (by linarith)
    constructor
    · rw [offsets_getD K 0 hK (by omega)]
      simp
    · rw [offsets_getD K (K - 1) hK (by omega)]
      have hcast : ((K - 1 : ℕ) : ℚ) = (K : ℚ) - 1 := by
        push_cast [Nat.cast_sub (by omega : 1 ≤ K)]
        ring
      rw [hcast]
      field_simp
      ring
  · intro K i hK hi
    have hKQ : (1 : ℚ) < (K : ℚ) := by exact_mod_cast hK
    have hne : ((K : ℚ) - 1) ≠ 0 := ne_of_gt (by linarith)
    rw [offsets_getD K (i + 1) hK (by omega), offsets_getD K i hK (by omega)]
    push_cast
    field_simp
    ring
  · intro K i hi
    by_cases hK : 1 < K
    · have hKQ : (1 : ℚ) < (K : ℚ) := by exact_mod_cast hK
      have hne : ((K : ℚ) - 1) ≠ 0 := ne_of_gt (by linarith)
      rw [offsets_getD K i hK hi, offsets_getD K (K - 1 - i) hK (by omega)]
      have hcast : ((K - 1 - i : ℕ) : ℚ) = (K : ℚ) - 1 - (i : ℚ) := by
        push_cast [Nat.cast_sub (by omega : i ≤ K - 1), Nat.cast_sub (by omega : 1 ≤ K)]
        ring
      rw [hcast]
      field_simp
      ring
    · have hK1 : K = 1 := by omega
      subst hK1
      have hi0 : i = 0 := by omega
      subst hi0
      norm_num [offsets]
  · intro bx hbx
    simp only [make_group_plot] at hbx
    obtain ⟨p, hp, kk, h0, hlt, hx⟩ :=
      plotRows_boxes_shape M tbl opts.jitterWidth
        (group_x (filteredGroups og gtc).length) (offsets sel.length)
        (colsOf gtc) (marker_of sel) (color_of (sampleOrderOf og gtc))
        ((filteredGroups og gtc).enum) sel 0 (M.init 2026) bx hbx
    have hplen : p.1 < (filteredGroups og gtc).length := by
      have h1 := List.mem_enum_iff_getElem?.mp hp
      exact (List.getElem?_eq_some.mp h1).1
    refine ⟨p.1, hplen, kk, by omega, ?_⟩
    rw [hx, group_x_getD _ _ hplen]

/-- C6 witness: with three selected rows, the first and third sub-offsets are
symmetric about zero. -/
theorem group_layout_positions_offsets_witness :
    (offsets 3).getD 0 0 + (offsets 3).getD (3 - 1 - 0) 0 = 0 :=
  ((group_layout_positions_offsets testRng 0 ⟨[], fun _ _ => Cell.missing⟩
    [] [] [] defaultOpts).2.2.2.2.2.1) 3 0 (by omega)

theorem sampleColorMapAux_keys (order : List String) (i : ℕ) :
    (sampleColorMapAux i order).map Prod.fst = order := by
  induction order generalizing i with
  | nil => rfl
  | cons c rest ih => simp [sampleColorMapAux, ih]

theorem plotRows_rowLegend (M : RngModel) (tbl : Table) (w : ℚ)
    (gx : List ℚ) (offs : List ℚ) (cols : String → List String)
    (markerOf : String → String) (colorOf : String → Color)
    (ordered : List (ℕ × String)) :
    ∀ (selRest : List String) (k ms : ℕ),
      (plotRows M tbl w gx offs cols markerOf colorOf ordered selRest k ms).2.2.1 =
        (selRest.filter (fun rid => (resolveRow tbl rid).isSome)).map
          (fun rid => (rid, markerOf rid)) := by
  intro selRest
  induction selRest with
  | nil =>
    intro k ms
    simp [plotRows]
  | cons rid rest ih =>
    intro k ms
    cases hres : resolveRow tbl rid with
    | none => simp [plotRows, hres, List.filter_cons, ih]
    | some r => simp [plotRows, hres, List.filter_cons, ih]

/-- C3 counterexample: in the table whose single row has identifier `"A"` and
only non-numeric cells, selecting `"A"` (which resolves) with one group `G1`
holding column `c1` renders zero scatter points, yet the marker legend still
holds the entry for `"A"` and the sample legend the entry for `c1`: a legend
entry does not require a rendered point, contrary to the claim. -/
theorem legend_entry_without_point_cex :
    ((make_group_plot testRng 0 ⟨["A"], fun _ _ => Cell.nonNumeric⟩ ["A"] ["G1"]
      [("G1", ["c1"])] defaultOpts).points = [] ∧
    (make_group_plot testRng 0 ⟨["A"], fun _ _ => Cell.nonNumeric⟩ ["A"] ["G1"]
      [("G1", ["c1"])] defaultOpts).rowLegend = [("A", "o")]) ∧
    (make_group_plot testRng 0 ⟨["A"], fun _ _ => Cell.nonNumeric⟩ ["A"] ["G1"]
      [("G1", ["c1"])] defaultOpts).sampleLegend = [("c1", (31, 119, 180))] := by
  refine ⟨⟨?_, ?_⟩, ?_⟩ <;> rfl

/-- C3 (amended): each of the two legend lists has one entry per label,
exactly once (given a duplicate-free selection), in the same order used for
color/marker assignment; but an entry does not require a rendered point: the
sample legend holds an entry for every column in the deduplicated first-seen
order over the non-empty groups, and the marker legend holds an entry exactly
for every selected identifier that resolves in the row index — even one none
of whose cells yields a point — while an identifier absent from the table
receives no marker-legend entry. -/
theorem legend_lists_characterization (M : RngModel) (g : ℕ) (tbl : Table)
    (sel og : List String) (gtc : List (String × List String)) (opts : Options) :
    ((make_group_plot M g tbl sel og gtc opts).sampleLegend.map Prod.fst =
      sampleOrderOf og gtc) ∧
    ((make_group_plot M g tbl sel og gtc opts).sampleLegend.map Prod.fst).Nodup ∧
    ((make_group_plot M g tbl sel og gtc opts).rowLegend =
      (sel.filter (fun rid => (resolveRow tbl rid).isSome)).map
        (fun rid => (rid, marker_of sel rid))) ∧
    (sel.Nodup →
      ((make_group_plot M g tbl sel og gtc opts).rowLegend.map Prod.fst).Nodup) := by
  have hkeys : (make_group_plot M g tbl sel og gtc opts).sampleLegend.map Prod.fst =
      sampleOrderOf og gtc := by
    show (sampleColorMap (sampleOrderOf og gtc)).map Prod.fst = sampleOrderOf og gtc
    exact sampleColorMapAux_keys _ 0
  have hleg : (make_group_plot M g tbl sel og gtc opts).rowLegend =
      (sel.filter (fun rid => (resolveRow tbl rid).isSome)).map
        (fun rid => (rid, marker_of sel rid)) := by
    show (plotRows M tbl opts.jitterWidth _ _ _ _ _ _ sel 0 (M.init 2026)).2.2.1 = _
    exact plotRows_rowLegend M tbl opts.jitterWidth _ _ _ _ _ _ sel 0 (M.init 2026)
  refine ⟨hkeys, ?_, hleg, ?_⟩
  · rw [hkeys]
    exact (dedupAux_nodup _ []).1
  · intro hnd
    rw [hleg]
    have : ((sel.filter (fun rid => (resolveRow tbl rid).isSome)).map
        (fun rid => (rid, marker_of sel rid))).map Prod.fst =
        sel.filter (fun rid => (resolveRow tbl rid).isSome) := by
      rw [List.map_map]
      have hcomp : Prod.fst ∘ (fun rid => (rid, marker_of sel rid)) =
          (id : String → String) := rfl
      rw [hcomp, List.map_id]
    rw [this]
    exact hnd.filter _

/-- C3 witness: with selection `["B", "A"]` where only `"A"` resolves, the
marker-legend labels are duplicate-free. -/
theorem legend_lists_characterization_witness :
    ((make_group_plot testRng 0 ⟨["A"], fun _ _ => Cell.nonNumeric⟩ ["B", "A"]
      ["G1"] [("G1", ["c1"])] defaultOpts).rowLegend.map Prod.fst).Nodup :=
  (legend_lists_characterization testRng 0 ⟨["A"], fun _ _ => Cell.nonNumeric⟩
    ["B", "A"] ["G1"] [("G1", ["c1"])] defaultOpts).2.2.2 (by decide)

theorem flatMap_congr {α β : Type} {l : List α} {f h : α → List β}
    (he : ∀ a ∈ l, f a = h a) : l.flatMap f = l.flatMap h := by
  induction l with
  | nil => rfl
  | cons a rest ih =>
    rw [List.flatMap_cons, List.flatMap_cons, he a (by simp),
      ih fun b hb => he b (by simp [hb])]

theorem alookup_mem_nodup {β : Type} (m : List (String × β)) (p : String × β)
    (hmem : p ∈ m) (hnd : (m.map Prod.fst).Nodup) : alookup m p.1 = some p.2 := by
  induction m with
  | nil => simp at hmem
  | cons q rest ih =>
    rcases List.mem_cons.mp hmem with rfl | hmem2
    · simp [alookup]
    · have hne : p.1 ≠ q.1 := by
        intro he
        have : q.1 ∈ rest.map Prod.fst :=
          he ▸ List.mem_map.mpr ⟨p, hmem2, rfl⟩
        exact (List.nodup_cons.mp (by simpa using hnd)).1 this
      simp only [alookup, hne, if_false]
      exact ih hmem2 (List.nodup_cons.mp (by simpa using hnd)).2

theorem alookup_isSome_iff {β : Type} (m : List (String × β)) (l : String) :
    (alookup m l).isSome ↔ l ∈ m.map Prod.fst := by
  induction m with
  | nil => simp [alookup]
  | cons q rest ih =>
    by_cases h : l = q.1
    · simp [alookup, h]
    · simp [alookup, h, ih]

theorem filteredGroups_of_nonEmpty (groups : List (String × List String))
    (hnd : (groups.map Prod.fst).Nodup) :
    filteredGroups (groups.map Prod.fst) (nonEmptyGroups groups) =
      (nonEmptyGroups groups).map Prod.fst := by
  induction groups with
  | nil => rfl
  | cons p rest ih =>
    have hnd2 : (rest.map Prod.fst).Nodup := (List.nodup_cons.mp (by simpa using hnd)).2
    have hnotin : p.1 ∉ rest.map Prod.fst := (List.nodup_cons.mp (by simpa using hnd)).1
    by_cases hpe : p.2 = []
    · have hner : nonEmptyGroups (p :: rest) = nonEmptyGroups rest := by
        simp [nonEmptyGroups, List.filter_cons, hpe]
      have hhead : (alookup (nonEmptyGroups rest) p.1).isSome = false := by
        rw [Bool.eq_false_iff]
        intro hs
        obtain ⟨q, hq, he⟩ :=
          List.mem_map.mp ((alookup_isSome_iff (nonEmptyGroups rest) p.1).mp hs)
        exact hnotin (he ▸ List.mem_map.mpr ⟨q, List.mem_of_mem_filter hq, rfl⟩)
      unfold filteredGroups
      rw [hner, List.map_cons, List.filter_cons, hhead, if_neg (by simp)]
      exact ih hnd2
    · have hner : nonEmptyGroups (p :: rest) = p :: nonEmptyGroups rest := by
        simp [nonEmptyGroups, List.filter_cons, hpe]
      have htail : ∀ g ∈ rest.map Prod.fst,
          alookup (p :: nonEmptyGroups rest) g = alookup (nonEmptyGroups rest) g := by
        intro g hg
        have hne : g ≠ p.1 := fun he => hnotin (he ▸ hg)
        cases p with
        | mk a b => simpa [alookup] using fun he => absurd he hne
      have hhead : (alookup (p :: nonEmptyGroups rest) p.1).isSome = true := by
        cases p with
        | mk a b => simp [alookup]
      unfold filteredGroups
      rw [hner, List.map_cons, List.filter_cons, hhead, if_pos rfl, List.map_cons]
      rw [List.filter_congr fun g hg => congrArg Option.isSome (htail g hg)]
      exact congrArg (fun l => p.1 :: l) (ih hnd2)

theorem nonEmptyGroups_keys_nodup (groups : List (String × List String))
    (hnd : (groups.map Prod.fst).Nodup) :
    ((nonEmptyGroups groups).map Prod.fst).Nodup := by
  induction groups with
  | nil => simp [nonEmptyGroups]
  | cons p rest ih =>
    have hnd2 : (rest.map Prod.fst).Nodup := (List.nodup_cons.mp (by simpa using hnd)).2
    have hnotin : p.1 ∉ rest.map Prod.fst := (List.nodup_cons.mp (by simpa using hnd)).1
    by_cases hpe : p.2 = []
    · have hner : nonEmptyGroups (p :: rest) = nonEmptyGroups rest := by
        simp [nonEmptyGroups, List.filter_cons, hpe]
      rw [hner]
      exact ih hnd2
    · have hner : nonEmptyGroups (p :: rest) = p :: nonEmptyGroups rest := by
        simp [nonEmptyGroups, List.filter_cons, hpe]
      rw [hner, List.map_cons, List.nodup_cons]
      refine ⟨?_, ih hnd2⟩
      intro hmem
      obtain ⟨q, hq, he⟩ := List.mem_map.mp hmem
      exact hnotin (he ▸ List.mem_map.mpr ⟨q, List.mem_of_mem_filter hq, rfl⟩)

theorem keys_flatMap_colsOf (m : List (String × List String))
    (hnd : (m.map Prod.fst).Nodup) :
    (m.map Prod.fst).flatMap (colsOf m) = m.flatMap Prod.snd := by
  induction m with
  | nil => rfl
  | cons p rest ih =>
    have hnd2 : (rest.map Prod.fst).Nodup := (List.nodup_cons.mp (by simpa using hnd)).2
    have hnotin : p.1 ∉ rest.map Prod.fst := (List.nodup_cons.mp (by simpa using hnd)).1
    rw [List.map_cons, List.flatMap_cons, List.flatMap_cons]
    have hhead : colsOf (p :: rest) p.1 = p.2 := by
      simp [colsOf, alookup]
    have htail : (rest.map Prod.fst).flatMap (colsOf (p :: rest)) =
        (rest.map Prod.fst).flatMap (colsOf rest) := by
      refine flatMap_congr fun g hg => ?_
      have hne : g ≠ p.1 := fun he => hnotin (he ▸ hg)
      simp [colsOf, alookup, hne]
    rw [hhead, htail, ih hnd2]

theorem enum_flatMap_snd {β : Type} (l : List String) (h : String → List β) :
    l.enum.flatMap (fun p => h p.2) = l.flatMap h := by
  have h1 : (l.enum.map Prod.snd).flatMap h = l.enum.flatMap (fun p => h p.2) := by
    rw [List.flatMap_map]
  rw [← h1, List.enum_map_snd]

theorem colPoints_row (M : RngModel) (tbl : Table) (w : ℚ)
    (colorOf : String → Color) (marker rid g : String) (r : ℕ) (x0 : ℚ) :
    ∀ (cs : List String) (s : ℕ),
      ∀ pt ∈ (colPoints M tbl w colorOf marker rid g r x0 cs s).1, pt.row = rid := by
  intro cs
  induction cs with
  | nil =>
    intro s pt hpt
    simp [colPoints] at hpt
  | cons c rest ih =>
    intro s pt hpt
    cases hc : (tbl.cell c r).toNum with
    | none =>
      rw [colPoints] at hpt
      rw [hc] at hpt
      exact ih s pt hpt
    | some v =>
      rw [colPoints] at hpt
      rw [hc] at hpt
      rcases List.mem_cons.mp hpt with rfl | hpt2
      · rfl
      · exact ih _ pt hpt2

theorem colPoints_length (M : RngModel) (tbl : Table) (w : ℚ)
    (colorOf : String → Color) (marker rid g : String) (r : ℕ) (x0 : ℚ) :
    ∀ (cs : List String) (s : ℕ),
      (colPoints M tbl w colorOf marker rid g r x0 cs s).1.length =
        cs.countP (fun c => ((tbl.cell c r).toNum).isSome) := by
  intro cs
  induction cs with
  | nil =>
    intro s
    simp [colPoints]
  | cons c rest ih =>
    intro s
    cases hc : (tbl.cell c r).toNum with
    | none => simp [colPoints, hc, ih, List.countP_cons]
    | some v => simp [colPoints, hc, ih, List.countP_cons]

theorem groupPoints_row (M : RngModel) (tbl : Table) (w : ℚ)
    (colorOf : String → Color) (marker rid : String) (r : ℕ) (gx : List ℚ)
    (off : ℚ) (cols : String → List String) :
    ∀ (ordered : List (ℕ × String)) (s : ℕ),
      ∀ pt ∈ (groupPoints M tbl w colorOf marker rid r gx off cols ordered s).1,
        pt.row = rid := by
  intro ordered
  induction ordered with
  | nil =>
    intro s pt hpt
    simp [groupPoints] at hpt
  | cons p rest ih =>
    intro s pt hpt
    obtain ⟨gi, g⟩ := p
    rw [groupPoints] at hpt
    rcases List.mem_append.mp hpt with h | h
    · exact colPoints_row M tbl w colorOf marker rid g r _ (cols g) s pt h
    · exact ih _ pt h

theorem groupPoints_length (M : RngModel) (tbl : Table) (w : ℚ)
    (colorOf : String → Color) (marker rid : String) (r : ℕ) (gx : List ℚ)
    (off : ℚ) (cols : String → List String) :
    ∀ (ordered : List (ℕ × String)) (s : ℕ),
      (groupPoints M tbl w colorOf marker rid r gx off cols ordered s).1.length =
        (ordered.flatMap (fun p => cols p.2)).countP
          (fun c => ((tbl.cell c r).toNum).isSome) := by
  intro ordered
  induction ordered with
  | nil =>
    intro s
    simp [groupPoints]
  | cons p rest ih =>
    intro s
    obtain ⟨gi, g⟩ := p
    rw [groupPoints]
    simp only [List.length_append, List.flatMap_cons, List.countP_append]
    rw [colPoints_length, ih]

theorem plotRows_points_row (M : RngModel) (tbl : Table) (w : ℚ) (gx : List ℚ)
    (offs : List ℚ) (cols : String → List String)
    (markerOf : String → String) (colorOf : String → Color)
    (ordered : List (ℕ × String)) :
    ∀ (selRest : List String) (k ms : ℕ),
      ∀ pt ∈ (plotRows M tbl w gx offs cols markerOf colorOf ordered selRest k ms).1,
        pt.row ∈ selRest ∧ (resolveRow tbl pt.row).isSome := by
  intro selRest
  induction selRest with
  | nil =>
    intro k ms pt hpt
    simp [plotRows] at hpt
  | cons rid rest ih =>
    intro k ms pt hpt
    cases hres : resolveRow tbl rid with
    | none =>
      simp only [plotRows, hres] at hpt
      obtain ⟨h1, h2⟩ := ih (k + 1) ms pt hpt
      exact ⟨List.mem_cons_of_mem rid h1, h2⟩
    | some r =>
      simp only [plotRows, hres] at hpt
      rcases List.mem_append.mp hpt with h | h
      · have hrow := groupPoints_row M tbl w colorOf (markerOf rid) rid r gx
          (offs.getD k 0) cols ordered _ pt h
        rw [hrow]
        exact ⟨List.mem_cons_self rid rest, by rw [hres]; rfl⟩
      · obtain ⟨h1, h2⟩ := ih (k + 1) (M.integersDraw ms).2 pt h
        exact ⟨List.mem_cons_of_mem rid h1, h2⟩

theorem plotRows_boxes_row (M : RngModel) (tbl : Table) (w : ℚ) (gx : List ℚ)
    (offs : List ℚ) (cols : String → List String)
    (markerOf : String → String) (colorOf : String → Color)
    (ordered : List (ℕ × String)) :
    ∀ (selRest : List String) (k ms : ℕ),
      ∀ bx ∈ (plotRows M tbl w gx offs cols markerOf colorOf ordered selRest k ms).2.1,
        bx.row ∈ selRest ∧ (resolveRow tbl bx.row).isSome := by
  intro selRest
  induction selRest with
  | nil =>
    intro k ms bx hbx
    simp [plotRows] at hbx
  | cons rid rest ih =>
    intro k ms bx hbx
    cases hres : resolveRow tbl rid with
    | none =>
      simp only [plotRows, hres] at hbx
      obtain ⟨h1, h2⟩ := ih (k + 1) ms bx hbx
      exact ⟨List.mem_cons_of_mem rid h1, h2⟩
    | some r =>
      simp only [plotRows, hres] at hbx
      rcases List.mem_append.mp hbx with h | h
      · unfold rowBoxes at h
        obtain ⟨p, hp, rfl⟩ := List.mem_map.mp h
        exact ⟨List.mem_cons_self rid rest, by rw [hres]; rfl⟩
      · obtain ⟨h1, h2⟩ := ih (k + 1) (M.integersDraw ms).2 bx h
        exact ⟨List.mem_cons_of_mem rid h1, h2⟩

theorem plotRows_points_countP (M : RngModel) (tbl : Table) (w : ℚ)
    (gx : List ℚ) (offs : List ℚ) (cols : String → List String)
    (markerOf : String → String) (colorOf : String → Color)
    (ordered : List (ℕ × String)) :
    ∀ (selRest : List String) (k ms : ℕ), selRest.Nodup →
      ∀ (rid : String) (r : ℕ), rid ∈ selRest → resolveRow tbl rid = some r →
        ((plotRows M tbl w gx offs cols markerOf colorOf ordered selRest k ms).1.countP
          (fun pt => pt.row == rid)) =
          (ordered.flatMap (fun p => cols p.2)).countP
            (fun c => ((tbl.cell c r).toNum).isSome) := by
  intro selRest
  induction selRest with
  | nil =>
    intro k ms _ rid r hmem
    simp at hmem
  | cons rid0 rest ih =>
    intro k ms hnd rid r hmem hres
    have hnd2 : rest.Nodup := (List.nodup_cons.mp hnd).2
    have hnotin : rid0 ∉ rest := (List.nodup_cons.mp hnd).1
    rcases List.mem_cons.mp hmem with rfl | hmem2
    · simp only [plotRows, hres, List.countP_append]
      have hchunk : ((groupPoints M tbl w colorOf (markerOf rid) rid r gx
          (offs.getD k 0) cols ordered (M.init (M.integersDraw ms).1)).1.countP
            (fun pt => pt.row == rid)) =
          (ordered.flatMap (fun p => cols p.2)).countP
            (fun c => ((tbl.cell c r).toNum).isSome) := by
        rw [← groupPoints_length M tbl w colorOf (markerOf rid) rid r gx
          (offs.getD k 0) cols ordered (M.init (M.integersDraw ms).1)]
        apply List.countP_eq_length.mpr
        intro pt hpt
        have := groupPoints_row M tbl w colorOf (markerOf rid) rid r gx
          (offs.getD k 0) cols ordered _ pt hpt
        simpa using this
      have hrest : ((plotRows M tbl w gx offs cols markerOf colorOf ordered rest
          (k + 1) (M.integersDraw ms).2).1.countP (fun pt => pt.row == rid)) = 0 := by
        apply List.countP_eq_zero.mpr
        intro pt hpt
        obtain ⟨h1, _⟩ := plotRows_points_row M tbl w gx offs cols markerOf
          colorOf ordered rest (k + 1) (M.integersDraw ms).2 pt hpt
        simp only [beq_iff_eq]
        intro he
        exact hnotin (he ▸ h1)
      rw [hchunk, hrest]
      omega
    · have hne : rid ≠ rid0 := fun he => hnotin (he ▸ hmem2)
      cases hres0 : resolveRow tbl rid0 with
      | none =>
        simp only [plotRows, hres0]
        exact ih (k + 1) ms hnd2 rid r hmem2 hres
      | some r0 =>
        simp only [plotRows, hres0, List.countP_append]
        have hchunk : ((groupPoints M tbl w colorOf (markerOf rid0) rid0 r0 gx
            (offs.getD k 0) cols ordered (M.init (M.integersDraw ms).1)).1.countP
              (fun pt => pt.row == rid)) = 0 := by
          apply List.countP_eq_zero.mpr
          intro pt hpt
          have hrow := groupPoints_row M tbl w colorOf (markerOf rid0) rid0 r0 gx
            (offs.getD k 0) cols ordered _ pt hpt
          simp only [beq_iff_eq, hrow]
          exact fun he => hne he.symm
        rw [hchunk, ih (k + 1) (M.integersDraw ms).2 hnd2 rid r hmem2 hres]
        omega

/-- C9: selecting a row identifier absent from the table (after
case-insensitive lookup) does not fail: the build succeeds, its output holds
zero scatter points, zero boxes and no marker-legend entry attributed to that
identifier, while every other selected identifier that resolves still
receives its full set of points — one per numeric cell over the non-empty
groups' columns of its row. -/
theorem unresolved_id_omitted (M : RngModel) (g : ℕ) (tbl : Table)
    (sel : List String) (groups : List (String × List String)) (opts : Options)
    (rid : String) (hmem : rid ∈ sel) (hres : resolveRow tbl rid = none)
    (hnd : sel.Nodup) (hgname : (groups.map Prod.fst).Nodup)
    (hg : ∃ p ∈ groups, p.2 ≠ []) :
    ∃ spec, plot M g tbl sel groups opts = .ok spec ∧
      spec.points.countP (fun pt => pt.row == rid) = 0 ∧
      spec.boxes.countP (fun bx => bx.row == rid) = 0 ∧
      spec.rowLegend.countP (fun e => e.1 == rid) = 0 ∧
      ∀ rid2 ∈ sel, ∀ r, resolveRow tbl rid2 = some r →
        spec.points.countP (fun pt => pt.row == rid2) =
          ((nonEmptyGroups groups).flatMap Prod.snd).countP
            (fun c => ((tbl.cell c r).toNum).isSome) := by
  have hselne : sel ≠ [] := List.ne_nil_of_mem hmem
  have hgne : nonEmptyGroups groups ≠ [] := by
    intro h0
    obtain ⟨p, hp, hpne⟩ := hg
    exact hpne ((nonEmptyGroups_eq_nil groups).mp h0 p hp)
  have hplot : plot M g tbl sel groups opts =
      .ok (make_group_plot M g tbl sel (groups.map Prod.fst)
        (nonEmptyGroups groups) opts) := by
    simp [plot, hselne, hgne, List.isEmpty_iff]
  refine ⟨_, hplot, ?_, ?_, ?_, ?_⟩
  · apply List.countP_eq_zero.mpr
    intro pt hpt
    simp only [make_group_plot] at hpt
    obtain ⟨-, hsome⟩ := plotRows_points_row M tbl _ _ _ _ _ _ _ sel 0 _ pt hpt
    simp only [beq_iff_eq]
    intro he
    rw [he, hres] at hsome
    simp at hsome
  · apply List.countP_eq_zero.mpr
    intro bx hbx
    simp only [make_group_plot] at hbx
    obtain ⟨-, hsome⟩ := plotRows_boxes_row M tbl _ _ _ _ _ _ _ sel 0 _ bx hbx
    simp only [beq_iff_eq]
    intro he
    rw [he, hres] at hsome
    simp at hsome
  · have hleg : (make_group_plot M g tbl sel (groups.map Prod.fst)
        (nonEmptyGroups groups) opts).rowLegend =
        (sel.filter (fun x => (resolveRow tbl x).isSome)).map
          (fun x => (x, marker_of sel x)) :=
      plotRows_rowLegend M tbl opts.jitterWidth _ _ _ _ _ _ sel 0 (M.init 2026)
    rw [hleg]
    apply List.countP_eq_zero.mpr
    intro e he
    obtain ⟨x, hx, rfl⟩ := List.mem_map.mp he
    have hxs := List.of_mem_filter hx
    simp only [beq_iff_eq]
    intro hee
    rw [show x = rid from hee, hres] at hxs
    simp at hxs
  · intro rid2 hmem2 r hres2
    simp only [make_group_plot]
    rw [plotRows_points_countP M tbl opts.jitterWidth _ _ _ _ _ _ sel 0 _
      hnd rid2 r hmem2 hres2]
    rw [enum_flatMap_snd, filteredGroups_of_nonEmpty groups hgname,
      keys_flatMap_colsOf (nonEmptyGroups groups)
        (nonEmptyGroups_keys_nodup groups hgname)]

/-- C9 witness: in the one-row table (identifier `"A"`), selecting
`["B", "A"]` where `"B"` is absent succeeds, attributes nothing to `"B"`, and
still gives `"A"` its one point (column `c1` is its only numeric cell). -/
theorem unresolved_id_omitted_witness :
    ∃ spec, plot testRng 0 oneRowTable ["B", "A"] [("G1", ["c1"])] defaultOpts =
        .ok spec ∧
      spec.points.countP (fun pt => pt.row == "B") = 0 ∧
      spec.boxes.countP (fun bx => bx.row == "B") = 0 ∧
      spec.rowLegend.countP (fun e => e.1 == "B") = 0 ∧
      ∀ rid2 ∈ ["B", "A"], ∀ r, resolveRow oneRowTable rid2 = some r →
        spec.points.countP (fun pt => pt.row == rid2) =
          ((nonEmptyGroups [("G1", ["c1"])]).flatMap Prod.snd).countP
            (fun c => ((oneRowTable.cell c r).toNum).isSome) :=
  unresolved_id_omitted testRng 0 oneRowTable ["B", "A"] [("G1", ["c1"])]
    defaultOpts "B" (by decide) (by decide) (by decide) (by decide)
    ⟨("G1", ["c1"]), by decide, by decide⟩

theorem rowSeedsAux_filter (M : RngModel) (tbl : Table) :
    ∀ (selRest : List String) (n : ℕ),
      rowSeedsAux M tbl selRest (masterStateAt M n) =
        seedsFrom M (selRest.filter (fun rid => (resolveRow tbl rid).isSome)) n := by
  intro selRest
  induction selRest with
  | nil =>
    intro n
    simp [rowSeedsAux, seedsFrom]
  | cons rid rest ih =>
    intro n
    cases hres : resolveRow tbl rid with
    | none => simp [rowSeedsAux, hres, List.filter_cons, ih]
    | some r =>
      have hstate : (M.integersDraw (masterStateAt M n)).2 = masterStateAt M (n + 1) := rfl
      have hdraw : (M.integersDraw (masterStateAt M n)).1 = masterDrawAt M n := rfl
      simp only [rowSeedsAux, hres, List.filter_cons, Option.isSome_some, if_pos]
      rw [hstate, hdraw, ih (n + 1)]
      rfl

theorem rowSeeds_eq (M : RngModel) (tbl : Table) (sel : List String) :
    rowSeeds M tbl sel =
      seedsFrom M (sel.filter (fun rid => (resolveRow tbl rid).isSome)) 0 := by
  have h0 : M.init 2026 = masterStateAt M 0 := rfl
  unfold rowSeeds
  rw [h0]
  exact rowSeedsAux_filter M tbl sel 0

theorem colPoints_norm (M : RngModel) (tbl : Table) (w : ℚ)
    (colorOf : String → Color) (marker₁ marker₂ rid g : String) (r : ℕ)
    (x0 off₁ off₂ : ℚ) :
    ∀ (cs : List String) (s : ℕ),
      ((colPoints M tbl w colorOf marker₁ rid g r (x0 + off₁) cs s).1.map
        (fun pt => (pt.row, pt.group, pt.x - off₁, pt.y, pt.color)) =
      (colPoints M tbl w colorOf marker₂ rid g r (x0 + off₂) cs s).1.map
        (fun pt => (pt.row, pt.group, pt.x - off₂, pt.y, pt.color))) ∧
      (colPoints M tbl w colorOf marker₁ rid g r (x0 + off₁) cs s).2 =
      (colPoints M tbl w colorOf marker₂ rid g r (x0 + off₂) cs s).2 := by
  intro cs
  induction cs with
  | nil =>
    intro s
    exact ⟨rfl, rfl⟩
  | cons c rest ih =>
    intro s
    cases hc : (tbl.cell c r).toNum with
    | none =>
      simp only [colPoints, hc]
      exact ih s
    | some v =>
      obtain ⟨hpts, hst⟩ := ih (M.stdNormal s).2
      simp only [colPoints, hc, List.map_cons]
      refine ⟨?_, hst⟩
      rw [hpts]
      congr 1
      show (rid, g, x0 + off₁ + w * (M.stdNormal s).1 - off₁, v, colorOf c) =
        (rid, g, x0 + off₂ + w * (M.stdNormal s).1 - off₂, v, colorOf c)
      exact congrArg (fun q => (rid, g, q, v, colorOf c)) (by ring)

theorem groupPoints_norm (M : RngModel) (tbl : Table) (w : ℚ)
    (colorOf : String → Color) (marker₁ marker₂ rid : String) (r : ℕ)
    (gx : List ℚ) (off₁ off₂ : ℚ) (cols : String → List String) :
    ∀ (ordered : List (ℕ × String)) (s : ℕ),
      ((groupPoints M tbl w colorOf marker₁ rid r gx off₁ cols ordered s).1.map
        (fun pt => (pt.row, pt.group, pt.x - off₁, pt.y, pt.color)) =
      (groupPoints M tbl w colorOf marker₂ rid r gx off₂ cols ordered s).1.map
        (fun pt => (pt.row, pt.group, pt.x - off₂, pt.y, pt.color))) ∧
      (groupPoints M tbl w colorOf marker₁ rid r gx off₁ cols ordered s).2 =
      (groupPoints M tbl w colorOf marker₂ rid r gx off₂ cols ordered s).2 := by
  intro ordered
  induction ordered with
  | nil =>
    intro s
    exact ⟨rfl, rfl⟩
  | cons p rest ih =>
    intro s
    obtain ⟨gi, gname⟩ := p
    obtain ⟨hc, hcs⟩ := colPoints_norm M tbl w colorOf marker₁ marker₂ rid gname r
      (gx.getD gi 0) off₁ off₂ (cols gname) s
    obtain ⟨hr, hrs⟩ := ih ((colPoints M tbl w colorOf marker₁ rid gname r
      (gx.getD gi 0 + off₁) (cols gname) s).2)
    simp only [groupPoints, List.map_append]
    constructor
    · rw [hc, hr, hcs]
    · rw [hrs, hcs]

theorem indexOf_append_cons (l₁ l₂ : List String) (a : String)
    (hnd : (l₁ ++ a :: l₂).Nodup) : (l₁ ++ a :: l₂).indexOf a = l₁.length := by
  have hna : a ∉ l₁ := by
    intro hmem
    rw [List.nodup_append] at hnd
    exact hnd.2.2 hmem (List.mem_cons_self a l₂)
  rw [List.indexOf_append_of_not_mem hna, List.indexOf_cons_self]
  omega

theorem plotRows_norm (M : RngModel) (tbl : Table) (w : ℚ) (gx : List ℚ)
    (cols : String → List String) (colorOf : String → Color)
    (ordered : List (ℕ × String)) (sel : List String) (hnd : sel.Nodup) :
    ∀ (rest : List String) (k ms : ℕ), sel.drop k = rest →
      ((plotRows M tbl w gx (offsets sel.length) cols (marker_of sel) colorOf
        ordered rest k ms).1.map
          (fun pt => (pt.row, pt.group, pt.x - subOffset sel pt.row, pt.y,
            pt.color))) =
        normRows M tbl w gx cols colorOf ordered rest ms := by
  intro rest
  induction rest with
  | nil =>
    intro k ms _
    simp [plotRows, normRows]
  | cons rid rest2 ih =>
    intro k ms hdrop
    have hk : k < sel.length := by
      by_contra hc
      push_neg at hc
      rw [List.drop_eq_nil_of_le hc] at hdrop
      exact List.cons_ne_nil rid rest2 hdrop.symm
    have hdrop2 : sel.drop (k + 1) = rest2 := by
      have h1 : List.drop 1 (List.drop k sel) = rest2 := by
        rw [hdrop]
        rfl
      rwa [List.drop_drop] at h1
    cases hres : resolveRow tbl rid with
    | none =>
      simp only [plotRows, normRows, hres]
      exact ih (k + 1) ms hdrop2
    | some r =>
      have hsel : sel = sel.take k ++ rid :: rest2 := by
        conv_lhs => rw [← List.take_append_drop k sel]
        rw [hdrop]
      have hidx : sel.indexOf rid = k := by
        have h1 := indexOf_append_cons (sel.take k) rest2 rid
          (by rw [← hsel]; exact hnd)
        rw [← hsel] at h1
        rw [h1, List.length_take]
        omega
      simp only [plotRows, normRows, hres, List.map_append]
      congr 1
      · have hcongr : ∀ pt ∈ (groupPoints M tbl w colorOf (marker_of sel rid)
            rid r gx ((offsets sel.length).getD k 0) cols ordered
            (M.init (M.integersDraw ms).1)).1,
            (fun pt => (pt.row, pt.group, pt.x - subOffset sel pt.row, pt.y,
              pt.color)) pt =
            (fun pt => (pt.row, pt.group,
              pt.x - (offsets sel.length).getD k 0, pt.y, pt.color)) pt := by
          intro pt hpt
          have hrow := groupPoints_row M tbl w colorOf (marker_of sel rid) rid r
            gx ((offsets sel.length).getD k 0) cols ordered _ pt hpt
          simp only [hrow, subOffset, hidx]
        rw [List.map_congr_left hcongr]
        obtain ⟨hgp, -⟩ := groupPoints_norm M tbl w colorOf (marker_of sel rid)
          "" rid r gx ((offsets sel.length).getD k 0) 0 cols ordered
          (M.init (M.integersDraw ms).1)
        rw [hgp]
        apply List.map_congr_left
        intro pt hpt
        simp only [sub_zero]
      · exact ih (k + 1) (M.integersDraw ms).2 hdrop2

theorem normRows_skip_unresolved (M : RngModel) (tbl : Table) (w : ℚ)
    (gx : List ℚ) (cols : String → List String) (colorOf : String → Color)
    (ordered : List (ℕ × String)) (bad : String)
    (hres : resolveRow tbl bad = none) :
    ∀ (pre post : List String) (ms : ℕ),
      normRows M tbl w gx cols colorOf ordered (pre ++ bad :: post) ms =
        normRows M tbl w gx cols colorOf ordered (pre ++ post) ms := by
  intro pre
  induction pre with
  | nil =>
    intro post ms
    simp [normRows, hres]
  | cons rid rest ih =>
    intro post ms
    cases hr : resolveRow tbl rid with
    | none => simp only [List.cons_append, normRows, hr]; exact ih post ms
    | some r =>
      simp only [List.cons_append, normRows, hr]
      congr 1
      exact ih post (M.integersDraw ms).2

/-- C10 counterexample: in the one-row table (identifier `"A"`, one numeric
cell), inserting the unresolvable identifier `"zzz"` before `"A"` changes the
jittered x-coordinate of `"A"`'s point — from `9/500` to `67/250` — even
though `"zzz"` consumes no master draw: the sub-offset `offsets[k]` depends
on the total selection length, so the claim that later resolved rows' jittered
x-coordinates are left unchanged is false. -/
theorem unresolved_insertion_changes_x_cex :
    resolveRow oneRowTable "zzz" = none ∧
    (make_group_plot testRng 0 oneRowTable ["zzz", "A"] ["G1"]
      [("G1", ["c1"])] defaultOpts).points.map Point.x ≠
    (make_group_plot testRng 0 oneRowTable ["A"] ["G1"]
      [("G1", ["c1"])] defaultOpts).points.map Point.x := by
  have hz : resolveRow oneRowTable "zzz" = none := by decide
  have ha : resolveRow oneRowTable "A" = some 0 := by decide
  have hcell : (oneRowTable.cell "c1" 0).toNum = some (PyFloat.fin 5) := by decide
  refine ⟨hz, ?_⟩
  norm_num [make_group_plot, plotRows, groupPoints, colPoints, rowBoxes, hz, ha,
    hcell, filteredGroups, colsOf, alookup, sampleOrderOf, dedupAux, group_x,
    offsets, linspace, List.filter_cons, List.filter_nil, List.range_succ,
    testRng, defaultOpts, List.enum, List.enumFrom]

/-- C10 (amended): an unresolvable identifier consumes no draw from the
master generator: the per-row seeds are exactly the consecutive master draws
indexed by each row's position among the resolved identifiers only, so
inserting an unresolvable identifier anywhere in the selection leaves every
resolved row's seed (and hence its standard-normal draws) unchanged; however
the jittered x-coordinates of later resolved rows do change, exactly by the
shift in their layout sub-offset `offsets[k]` (which depends on the total
selection length): after subtracting each row's sub-offset, the scatter
points of the two builds agree in row, group, x, y and color (markers also
shift with position and are not preserved). -/
theorem unresolved_insertion_seed_alignment (M : RngModel) (g : ℕ)
    (tbl : Table) (pre post og : List String)
    (gtc : List (String × List String)) (opts : Options) (bad : String)
    (hres : resolveRow tbl bad = none)
    (hnd : (pre ++ bad :: post).Nodup) :
    (∀ sel : List String, rowSeeds M tbl sel =
      seedsFrom M (sel.filter (fun rid => (resolveRow tbl rid).isSome)) 0) ∧
    rowSeeds M tbl (pre ++ bad :: post) = rowSeeds M tbl (pre ++ post) ∧
    ((make_group_plot M g tbl (pre ++ bad :: post) og gtc opts).points.map
      (fun pt => (pt.row, pt.group,
        pt.x - subOffset (pre ++ bad :: post) pt.row, pt.y, pt.color)) =
    (make_group_plot M g tbl (pre ++ post) og gtc opts).points.map
      (fun pt => (pt.row, pt.group,
        pt.x - subOffset (pre ++ post) pt.row, pt.y, pt.color))) := by
  have hfilter : (pre ++ bad :: post).filter
      (fun rid => (resolveRow tbl rid).isSome) =
      (pre ++ post).filter (fun rid => (resolveRow tbl rid).isSome) := by
    rw [List.filter_append, List.filter_append, List.filter_cons]
    rw [hres]
    simp
  have hnd2 : (pre ++ post).Nodup := by
    have hsub : (pre ++ post).Sublist (pre ++ bad :: post) :=
      List.Sublist.append_left (List.sublist_cons_self bad post) pre
    exact List.Nodup.sublist hsub hnd
  refine ⟨rowSeeds_eq M tbl, ?_, ?_⟩
  · rw [rowSeeds_eq, rowSeeds_eq, hfilter]
  · simp only [make_group_plot]
    rw [plotRows_norm M tbl opts.jitterWidth _ _ _ _ (pre ++ bad :: post) hnd
        (pre ++ bad :: post) 0 (M.init 2026) (List.drop_zero _),
      plotRows_norm M tbl opts.jitterWidth _ _ _ _ (pre ++ post) hnd2
        (pre ++ post) 0 (M.init 2026) (List.drop_zero _),
      normRows_skip_unresolved M tbl opts.jitterWidth _ _ _ _ bad hres pre post]

/-- C10 witness: in the one-row table, inserting the absent identifier
`"zzz"` before `"A"` leaves the drawn (identifier, seed) pairs unchanged. -/
theorem unresolved_insertion_seed_alignment_witness :
    rowSeeds testRng oneRowTable ([] ++ "zzz" :: ["A"]) =
      rowSeeds testRng oneRowTable ([] ++ ["A"]) :=
  (unresolved_insertion_seed_alignment testRng 0 oneRowTable [] ["A"] ["G1"]
    [("G1", ["c1"])] defaultOpts "zzz" (by decide) (by decide)).2.1
